import Mathlib

/-!
Shallow embedding of the rexpayops payment-gateway integration
(RexpayV3Service and its helpers) and proofs of the specification claims.

Conventions of the embedding:
* JavaScript strings are modelled as Lean `String` where only equality and
  lowercasing matter, and as `List Nat` of their UTF-8 bytes inside the
  encryption codec.
* JavaScript numbers are modelled as `ℚ` (success rates, scores, timestamps)
  or `Nat` (counters, HTTP statuses, delays in milliseconds).
* The insertion-ordered JS `Map` holding subaccount metrics is modelled as an
  association list; `Map.set` keeps the position of an existing key and
  appends a new one, exactly as JS `Map` does.
* Fallible operations return `Except`/`Option`; thrown JS errors are modelled
  by explicit error values carrying the constructor name and message.
* `async` operations are modelled as functions from the attempt index to the
  result the awaited promise settles with, so that a retried operation can
  fail on some attempts and succeed on others.
-/

deriving instance DecidableEq for Except

namespace Rexpay

/-- Internal payment status enum (`PaymentStatus` from the DAL). -/
inductive PaymentStatus where
  | PENDING
  | SUCCESS
  | FAILED
deriving DecidableEq, Repr

/-- ASCII lower-casing of one character, as JS `toLowerCase` does on the
ASCII range relevant to gateway status strings. -/
def jsCharToLower (c : Char) : Char :=
  if 65 ≤ c.toNat ∧ c.toNat ≤ 90 then Char.ofNat (c.toNat + 32) else c

/-- `status.toLowerCase()` for ASCII strings. -/
def jsToLowerCase (s : String) : String :=
  String.mk (s.data.map jsCharToLower)

/-- Embedding of `handleRexpayResponseStatus` (RexpayV3Service.ts lines 87-100):
`switch (status?.toLowerCase())` with cases `success`/`completed` mapping to
SUCCESS, `failed`/`error` mapping to FAILED, and everything else (including
`pending` and `processing`) falling through to PENDING. -/
def handleRexpayResponseStatus (status : String) : PaymentStatus :=
  match jsToLowerCase status with
  | "success" => .SUCCESS
  | "completed" => .SUCCESS
  | "failed" => .FAILED
  | "error" => .FAILED
  | _ => .PENDING

/-- `status?.toLowerCase()` on a possibly-undefined status: an absent status
falls through to the `default` branch, i.e. PENDING. -/
def handleRexpayResponseStatusOpt (status : Option String) : PaymentStatus :=
  match status with
  | some s => handleRexpayResponseStatus s
  | none => .PENDING

/-- A thrown JS error as seen by the service code: constructor name, message,
the optional `response.status` and `response.data.message` of an Axios error,
and whether `axios.isAxiosError` holds for it. -/
structure JsError where
  name : String
  message : String
  responseStatus : Option Nat := none
  responseMessage : Option String := none
  isAxios : Bool := false
deriving DecidableEq, Repr

/-- `err.response?.data?.message || err.message`. -/
def JsError.errorMessage (e : JsError) : String :=
  match e.responseMessage with
  | some m => m
  | none => e.message

/-- `this.MAX_RETRIES` (RexpayV3Service.ts line 108). -/
def MAX_RETRIES : Nat := 3

/-- `this.INITIAL_RETRY_DELAY` in milliseconds (RexpayV3Service.ts line 109). -/
def INITIAL_RETRY_DELAY : Nat := 1000

/-- The `new Error('All retry attempts exhausted')` thrown after the loop
(RexpayV3Service.ts line 201); unreachable when the loop starts at attempt 0. -/
def exhaustedError : JsError :=
  { name := "Error", message := "All retry attempts exhausted" }

/-- One execution of the `for (let attempt = 0; attempt <= retries; attempt++)`
loop of `executeWithRetry` (RexpayV3Service.ts lines 184-202), starting at
a given attempt index. `fuel` counts the loop iterations still allowed by the
loop condition (`retries + 1 - attempt`); running out of fuel corresponds to
the loop condition failing, which reaches the final `throw`. Returns the
result, the number of times `operation` was invoked, and the list of delays
(in ms) slept between attempts. -/
def retryLoop (op : Nat → Except JsError α) (retries : Nat) :
    Nat → Nat → Except JsError α × Nat × List Nat
  | _, 0 => (.error exhaustedError, 0, [])
  | attempt, fuel + 1 =>
    match op attempt with
    | .ok a => (.ok a, 1, [])
    | .error e =>
      if attempt = retries then
        (.error e, 1, [])
      else
        let r := retryLoop op retries (attempt + 1) fuel
        (r.1, r.2.1 + 1, INITIAL_RETRY_DELAY * 2 ^ attempt :: r.2.2)

/-- Embedding of `executeWithRetry` (RexpayV3Service.ts lines 184-202): run the
retry loop from attempt 0; the loop admits `retries + 1` iterations. -/
def executeWithRetry (op : Nat → Except JsError α) (retries : Nat) :
    Except JsError α × Nat × List Nat :=
  retryLoop op retries 0 (retries + 1)

/-- Per-subaccount rolling metrics (`SubaccountMetrics`,
RexpayV3Service.ts lines 78-84). -/
structure SubaccountMetrics where
  uuid : String
  successRate : ℚ
  lastUsed : ℚ
  totalTransactions : Nat
  successfulTransactions : Nat
deriving DecidableEq, Repr

/-- The insertion-ordered `Map<string, SubaccountMetrics>`. -/
abbrev MetricsMap := List (String × SubaccountMetrics)

/-- `map.get(k)`. -/
def mapGet (m : MetricsMap) (k : String) : Option SubaccountMetrics :=
  match m.find? (fun p => p.1 = k) with
  | some p => some p.2
  | none => none

/-- `map.set(k, v)`: JS `Map.set` updates an existing key in place (keeping its
position in iteration order) and appends a fresh key at the end. -/
def mapSet (m : MetricsMap) (k : String) (v : SubaccountMetrics) : MetricsMap :=
  if m.any (fun p => p.1 = k) then
    m.map (fun p => if p.1 = k then (k, v) else p)
  else
    m ++ [(k, v)]

/-- The metrics record created for a newly seen subaccount
(RexpayV3Service.ts lines 138-144): optimistic success rate 1.0, never used,
zero transaction counters. -/
def freshMetrics (uuid : String) : SubaccountMetrics :=
  { uuid := uuid, successRate := 1, lastUsed := 0,
    totalTransactions := 0, successfulTransactions := 0 }

/-- Embedding of `updateSubaccountMetrics` (RexpayV3Service.ts lines 170-180):
if the id has metrics, increment `totalTransactions`, conditionally increment
`successfulTransactions`, recompute `successRate` as their quotient, and store
the record back; if the id is unknown, do nothing. -/
def updateSubaccountMetrics (m : MetricsMap) (subaccountId : String)
    (success : Bool) : MetricsMap :=
  match mapGet m subaccountId with
  | none => m
  | some metrics =>
    let total := metrics.totalTransactions + 1
    let succ := metrics.successfulTransactions + (if success then 1 else 0)
    mapSet m subaccountId
      { metrics with
        totalTransactions := total
        successfulTransactions := succ
        successRate := (succ : ℚ) / (total : ℚ) }

/-- A sequence of `recordOutcome`/`updateSubaccountMetrics` calls against one
subaccount id, applied in order. -/
def recordOutcomes (m : MetricsMap) (subaccountId : String)
    (outcomes : List Bool) : MetricsMap :=
  outcomes.foldl (fun acc b => updateSubaccountMetrics acc subaccountId b) m

/-- The `subaccountSelection` block of the default configuration of the
selector variant (part_001 lines 84-118). -/
structure SubaccountSelectionConfig where
  successRateWeight : ℚ
  recencyWeight : ℚ
  minSuccessRate : ℚ
deriving DecidableEq, Repr

/-- `successRateWeight: 0.7, recencyWeight: 0.3, minSuccessRate: 0.8`
(part_001 lines 111-117). -/
def defaultSelectionConfig : SubaccountSelectionConfig :=
  { successRateWeight := 7/10, recencyWeight := 3/10, minSuccessRate := 4/5 }

/-- 30 days in milliseconds, the recency window used by
`selectBestSubaccount` (part_001 line 443). -/
def RECENCY_WINDOW : ℚ := 30 * 24 * 60 * 60 * 1000

/-- `1 - Math.min(1, (now - metrics.lastUsed) / (30 * 24 * 60 * 60 * 1000))`
(part_001 line 443). -/
def recencyScore (now lastUsed : ℚ) : ℚ :=
  1 - min 1 ((now - lastUsed) / RECENCY_WINDOW)

/-- `metrics.successRate * successRateWeight + recency * recencyWeight`
(part_001 lines 444-447). -/
def subaccountScore (cfg : SubaccountSelectionConfig) (now : ℚ)
    (metrics : SubaccountMetrics) : ℚ :=
  metrics.successRate * cfg.successRateWeight +
    recencyScore now metrics.lastUsed * cfg.recencyWeight

/-- The `for (const [id, metrics] of this.subaccountMetrics.entries())` loop of
`selectBestSubaccount` (part_001 lines 436-453), carrying `bestScore` and
`bestSubaccount`: entries below `minSuccessRate` are skipped, every other
entry is scored, and a strictly better score replaces the current best. -/
def selectLoop (cfg : SubaccountSelectionConfig) (now : ℚ) :
    MetricsMap → ℚ → Option String → ℚ × Option String
  | [], bestScore, best => (bestScore, best)
  | (id, metrics) :: rest, bestScore, best =>
    if metrics.successRate < cfg.minSuccessRate then
      selectLoop cfg now rest bestScore best
    else
      let score := subaccountScore cfg now metrics
      if bestScore < score then
        selectLoop cfg now rest score (some id)
      else
        selectLoop cfg now rest bestScore best

/-- Embedding of `selectBestSubaccount` (part_001 lines 427-456): null on an
empty metrics map, otherwise the best id found by the loop seeded with
`bestScore = -1`, `bestSubaccount = null`. -/
def selectBestSubaccount (cfg : SubaccountSelectionConfig) (now : ℚ)
    (m : MetricsMap) : Option String :=
  if m = [] then none
  else (selectLoop cfg now m (-1) none).2

/-- The card part of a `CardPaymentInstrument`; only the fields the service
reads. `encrypted` is the optional EncryptedEnvelope. -/
structure Card where
  number : String
  securityCode : String
  expiryMonth : String
  expiryYear : String
  encrypted : Option String := none
deriving DecidableEq, Repr

/-- The slice of a `Payment` consumed by `authorizePayment` and
`retrievePayment`. -/
structure Payment where
  reference : String
  amount : ℚ
  currency : String
  card : Card
  providerReference : Option String := none
deriving DecidableEq, Repr

/-- A thrown domain error surfaced to the caller: the error class name, the
message, and the name/message of the wrapped original error, if any. -/
structure ThrownError where
  name : String
  message : String
  original : Option (String × String) := none
deriving DecidableEq, Repr

/-- `formatAmount` (RexpayV3Service.ts lines 261-265): convert minor units to
currency units and round to 2 decimal places with `Math.round`, which rounds
half towards positive infinity, as Lean `round` does on `ℚ`. -/
def formatAmount (amount : ℚ) : ℚ :=
  ((round (amount / 100 * 100) : ℤ) : ℚ) / 100

/-- Body of the `/v2/charge` response used by `authorizePayment`:
`message`, `data.reference` and `data.status`. -/
structure ChargeResponse where
  message : Option String := none
  dataReference : Option String := none
  dataStatus : String
deriving DecidableEq, Repr

/-- What `JSON.parse` recovers from the decrypted envelope in
`authorizePayment`: the card residue plus the chosen `subaccount_id`. -/
structure DecryptedCardData where
  subaccountId : Option String := none
deriving DecidableEq, Repr

/-- The `/v2/charge` request payload (RexpayV3Service.ts lines 428-433). -/
structure ChargePayload where
  transactionId : Option String
  amount : ℚ
  currency : String
  subaccountId : Option String
deriving DecidableEq, Repr

/-- A `CardPaymentOutput` as returned by `authorizePayment` /
`retrievePayment`: transaction id, mapped status, message, and the optional
gateway detail fields. -/
structure CardPaymentOut where
  transactionId : String
  status : PaymentStatus
  message : String
  gatewayRecommendation : Option String := none
  gatewayCode : Option String := none
  acquirerMessage : Option String := none
deriving DecidableEq, Repr

/-- Embedding of `authorizePayment` (RexpayV3Service.ts lines 407-480).
External effects are passed in: `decryptFn` models
`decrypt(-, encryption_key, encryption_iv)`, `parseFn` models `JSON.parse`,
and `gw` gives the settlement of the `/v2/charge` call on each attempt.
Returns the result (the catch block wraps every thrown error into a
`PaymentError` built from `err.response?.data?.message || err.message`),
the updated subaccount-metrics map, and the number of network calls made. -/
def authorizePayment (m : MetricsMap) (p : Payment)
    (decryptFn : String → Except JsError String)
    (parseFn : String → Except JsError DecryptedCardData)
    (gw : ChargePayload → Nat → Except JsError ChargeResponse) :
    Except ThrownError CardPaymentOut × MetricsMap × Nat :=
  match p.card.encrypted with
  | none =>
    -- `throw new ValidationError('No encrypted card details found')`,
    -- caught and wrapped by the surrounding catch block.
    let v : JsError := { name := "ValidationError",
                         message := "No encrypted card details found" }
    (.error { name := "PaymentError",
              message := "Failed to authorize payment: " ++ v.errorMessage,
              original := some (v.name, v.message) }, m, 0)
  | some enc =>
    match decryptFn enc with
    | .error e =>
      (.error { name := "PaymentError",
                message := "Failed to authorize payment: " ++ e.errorMessage,
                original := some (e.name, e.message) }, m, 0)
    | .ok plain =>
      match parseFn plain with
      | .error e =>
        (.error { name := "PaymentError",
                  message := "Failed to authorize payment: " ++ e.errorMessage,
                  original := some (e.name, e.message) }, m, 0)
      | .ok decryptedCardData =>
        let payload : ChargePayload :=
          { transactionId := p.providerReference
            amount := formatAmount p.amount
            currency := p.currency
            subaccountId := decryptedCardData.subaccountId }
        let r := executeWithRetry (gw payload) MAX_RETRIES
        match r.1 with
        | .error e =>
          (.error { name := "PaymentError",
                    message := "Failed to authorize payment: " ++ e.errorMessage,
                    original := some (e.name, e.message) }, m, r.2.1)
        | .ok chargeResponse =>
          -- `if (subaccountId) { this.updateSubaccountMetrics(...) }`
          let m2 :=
            match decryptedCardData.subaccountId with
            | some sid =>
              if sid = "" then m
              else updateSubaccountMetrics m sid
                (handleRexpayResponseStatus chargeResponse.dataStatus ≠ .FAILED)
            | none => m
          (.ok { transactionId :=
                   (chargeResponse.dataReference).getD p.reference
                 status := handleRexpayResponseStatus chargeResponse.dataStatus
                 message := (chargeResponse.message).getD "Payment authorized" },
           m2, r.2.1)

/-- Body of the `/v3/payments/{id}` response used by `retrievePayment`. -/
structure RetrieveResponse where
  message : Option String := none
  dataStatus : Option String := none
  gatewayResponseRaw : Option String := none
deriving DecidableEq, Repr

/-- The parsed `gateway_response` blob: `response.gatewayRecommendation`,
`response.gatewayCode`, `response.acquirerMessage`. -/
structure GatewayResponseParsed where
  gatewayRecommendation : Option String := none
  gatewayCode : Option String := none
  acquirerMessage : Option String := none
deriving DecidableEq, Repr

/-- The default gateway-response object of `retrievePayment`
(RexpayV3Service.ts lines 509-518): all detail fields present but empty. -/
def defaultGatewayResponse : GatewayResponseParsed :=
  { gatewayRecommendation := some "", gatewayCode := some "",
    acquirerMessage := some "" }

/-- Embedding of `retrievePayment` (RexpayV3Service.ts lines 488-566).
`gw` gives the settlement of the `/v3/payments/{id}` call per attempt and
`parseGw` models `JSON.parse` on the embedded `gateway_response` string.
An empty payment id throws a ValidationError, which the catch block
rethrows unwrapped. A failed parse of `gateway_response` degrades to the
default (empty) detail object. In the catch block an Axios error with
`response.status === 404` becomes a FAILED "Payment not found" result;
any other Axios error becomes a thrown `PaymentError('Failed to retrieve
payment')`; a non-Axios error becomes `PaymentError('Payment retrieval
failed')`. -/
def retrievePayment (paymentId : String)
    (gw : Nat → Except JsError RetrieveResponse)
    (parseGw : String → Except JsError GatewayResponseParsed) :
    Except ThrownError CardPaymentOut :=
  if paymentId = "" then
    .error { name := "ValidationError", message := "Payment ID is required" }
  else
    let r := executeWithRetry gw MAX_RETRIES
    match r.1 with
    | .ok data =>
      let gatewayResponse :=
        match data.gatewayResponseRaw with
        | some raw =>
          match parseGw raw with
          | .ok parsed => parsed
          | .error _ => defaultGatewayResponse
        | none => defaultGatewayResponse
      .ok { transactionId := paymentId
            status := handleRexpayResponseStatusOpt data.dataStatus
            message := (data.message).getD "Payment retrieved"
            gatewayRecommendation := gatewayResponse.gatewayRecommendation
            gatewayCode := gatewayResponse.gatewayCode
            acquirerMessage := gatewayResponse.acquirerMessage }
    | .error e =>
      if e.isAxios then
        if e.responseStatus = some 404 then
          .ok { transactionId := paymentId
                status := .FAILED
                message := "Payment not found" }
        else
          .error { name := "PaymentError",
                   message := "Failed to retrieve payment",
                   original := some (e.name, e.message) }
      else
        .error { name := "PaymentError",
                 message := "Payment retrieval failed",
                 original := some (e.name, e.message) }

/-!
Embedding of `encrypt`/`decrypt` (src/src/utils/encryption.ts). Strings are
modelled as lists of their UTF-8 bytes. The two external Node `crypto`
primitives the code calls — SHA-256 and the AES-256 block permutation behind
`aes-256-cbc` — are abstracted as parameters (`CipherPrimitives`); everything
the repository itself determines (key/IV formatting, PKCS#7 padding, CBC
chaining, base64 transport encoding) is embedded concretely.
-/

/-- The external Node `crypto` primitives: the SHA-256 digest (32 bytes) and
the keyed AES block permutation and its inverse on 16-byte blocks. -/
structure CipherPrimitives where
  sha256 : List Nat → List Nat
  aesEncrypt : List Nat → List Nat → List Nat
  aesDecrypt : List Nat → List Nat → List Nat

/-- Lower-case hex digit of a value below 16, as an ASCII byte. -/
def hexDigit (n : Nat) : Nat :=
  if n < 10 then 48 + n else 87 + n

/-- `digest('hex')`: each digest byte becomes two ASCII hex characters. -/
def toHexBytes (l : List Nat) : List Nat :=
  l.flatMap (fun b => [hexDigit (b / 16), hexDigit (b % 16)])

/-- `crypto.createHash('sha256').update(key).digest('hex').substring(0, 32)`
then `Buffer.from(...)` (encryption.ts lines 14-18): the first 32 ASCII hex
characters of the digest, used as the 32-byte AES key. -/
def formattedKey (P : CipherPrimitives) (key : List Nat) : List Nat :=
  (toHexBytes (P.sha256 key)).take 32

/-- `Buffer.from(iv.padEnd(16, '0').substring(0, 16))` (encryption.ts
line 20): right-pad the IV with ASCII `'0'` (byte 48) to 16 and truncate. -/
def formatIV (iv : List Nat) : List Nat :=
  ((iv ++ List.replicate (16 - iv.length) 48).take 16)

/-- PKCS#7 padding applied by `cipher.final` for `aes-256-cbc`: append
`16 - len mod 16` copies of that value (a full block when already aligned). -/
def pkcs7pad (l : List Nat) : List Nat :=
  let p := 16 - l.length % 16
  l ++ List.replicate p p

/-- PKCS#7 unpadding performed by `decipher.final`: the last byte names the
padding length, which must be between 1 and 16 and match every padding byte;
otherwise the decipher throws (`none`). -/
def pkcs7unpad (l : List Nat) : Option (List Nat) :=
  match l.getLast? with
  | none => none
  | some p =>
    if 1 ≤ p ∧ p ≤ 16 ∧ p ≤ l.length ∧ (l.drop (l.length - p)).all (· = p) then
      some (l.take (l.length - p))
    else
      none

/-- Byte-wise XOR of two equal-length blocks. -/
def xorBytes (a b : List Nat) : List Nat :=
  List.zipWith Nat.xor a b

/-- Split a byte list into 16-byte blocks; `fuel` bounds the recursion and is
instantiated with the list length. -/
def toBlocksF : Nat → List Nat → List (List Nat)
  | _, [] => []
  | 0, _ :: _ => []
  | fuel + 1, l@(_ :: _) => l.take 16 :: toBlocksF fuel (l.drop 16)

/-- Split a byte list into its 16-byte blocks. -/
def toBlocks (l : List Nat) : List (List Nat) :=
  toBlocksF l.length l

/-- Concatenate blocks back into a byte list. -/
def joinBlocks (bs : List (List Nat)) : List Nat :=
  bs.flatten

/-- CBC encryption: each plaintext block is XORed with the previous
ciphertext block (initially the IV) before the block cipher is applied. -/
def cbcEncryptBlocks (E : List Nat → List Nat) :
    List Nat → List (List Nat) → List (List Nat)
  | _, [] => []
  | prev, b :: rest =>
    let c := E (xorBytes prev b)
    c :: cbcEncryptBlocks E c rest

/-- CBC decryption: each ciphertext block is deciphered and XORed with the
previous ciphertext block (initially the IV). -/
def cbcDecryptBlocks (D : List Nat → List Nat) :
    List Nat → List (List Nat) → List (List Nat)
  | _, [] => []
  | prev, c :: rest =>
    xorBytes prev (D c) :: cbcDecryptBlocks D c rest

/-- The base64 alphabet character for an index below 64, as an ASCII byte. -/
def b64Char (i : Nat) : Nat :=
  if i < 26 then 65 + i
  else if i < 52 then 97 + (i - 26)
  else if i < 62 then 48 + (i - 52)
  else if i = 62 then 43
  else 47

/-- The index of a base64 alphabet character. -/
def b64Index (c : Nat) : Nat :=
  if 65 ≤ c ∧ c ≤ 90 then c - 65
  else if 97 ≤ c ∧ c ≤ 122 then c - 71
  else if 48 ≤ c ∧ c ≤ 57 then c + 4
  else if c = 43 then 62
  else 63

/-- Encode a chunk of at most three bytes as four base64 characters,
`'='` (byte 61) padding the final partial chunk. -/
def b64EncodeChunk : List Nat → List Nat
  | [a, b, c] => [b64Char (a / 4), b64Char (a % 4 * 16 + b / 16),
                  b64Char (b % 16 * 4 + c / 64), b64Char (c % 64)]
  | [a, b] => [b64Char (a / 4), b64Char (a % 4 * 16 + b / 16),
               b64Char (b % 16 * 4), 61]
  | [a] => [b64Char (a / 4), b64Char (a % 4 * 16), 61, 61]
  | _ => []

/-- Base64-encode a byte list, three bytes at a time; `fuel` bounds the
recursion and is instantiated with the list length. -/
def b64EncodeF : Nat → List Nat → List Nat
  | _, [] => []
  | 0, _ :: _ => []
  | fuel + 1, l@(_ :: _) => b64EncodeChunk (l.take 3) ++ b64EncodeF fuel (l.drop 3)

/-- `toString('base64')` on a byte buffer. -/
def b64Encode (l : List Nat) : List Nat :=
  b64EncodeF l.length l

/-- Decode a group of base64 characters (after stripping `'='`) back into
one to three bytes. -/
def b64DecodeGroup : List Nat → List Nat
  | [i, j, k, n] => [i * 4 + j / 16, j % 16 * 16 + k / 4, k % 4 * 64 + n]
  | [i, j, k] => [i * 4 + j / 16, j % 16 * 16 + k / 4]
  | [i, j] => [i * 4 + j / 16]
  | _ => []

/-- Base64-decode, four characters at a time; `fuel` bounds the recursion
and is instantiated with the input length. -/
def b64DecodeF : Nat → List Nat → List Nat
  | _, [] => []
  | 0, _ :: _ => []
  | fuel + 1, l@(_ :: _) =>
    b64DecodeGroup (((l.take 4).filter (fun c => c ≠ 61)).map b64Index) ++
      b64DecodeF fuel (l.drop 4)

/-- `Buffer.from(encrypted, 'base64')`. -/
def b64Decode (l : List Nat) : List Nat :=
  b64DecodeF l.length l

/-- Embedding of `encrypt` (encryption.ts lines 11-36): derive the key and
IV, PKCS#7-pad the UTF-8 plaintext, CBC-encrypt it with the AES-256 block
permutation, and base64-encode the ciphertext. -/
def encrypt (P : CipherPrimitives) (text key iv : List Nat) : List Nat :=
  let k := formattedKey P key
  let ivb := formatIV iv
  b64Encode (joinBlocks (cbcEncryptBlocks (P.aesEncrypt k) ivb
    (toBlocks (pkcs7pad text))))

/-- Embedding of `decrypt` (encryption.ts lines 45-70): base64-decode, check
the ciphertext is non-degenerate and block-aligned (otherwise the decipher
throws), CBC-decrypt, and strip the PKCS#7 padding (`none` models the thrown
`'Failed to decrypt data'`). -/
def decrypt (P : CipherPrimitives) (encrypted key iv : List Nat) :
    Option (List Nat) :=
  let k := formattedKey P key
  let ivb := formatIV iv
  let cbytes := b64Decode encrypted
  if cbytes.length % 16 = 0 then
    pkcs7unpad (joinBlocks (cbcDecryptBlocks (P.aesDecrypt k) ivb
      (toBlocks cbytes)))
  else
    none

/-!
Concrete fixtures used to instantiate the theorems below, mirroring the
repository's own test data (`__tests__/RexpayV3Service.test.ts`).
-/

/-- An Axios error for an HTTP 429 response. -/
def err429 : JsError :=
  { name := "Error", message := "Request failed with status code 429",
    responseStatus := some 429, responseMessage := some "Too many requests",
    isAxios := true }

/-- An Axios error for an HTTP 400 response (non-retryable per the
ErrorClassifier table). -/
def err400 : JsError :=
  { name := "Error", message := "Request failed with status code 400",
    responseStatus := some 400, responseMessage := some "Currency not supported",
    isAxios := true }

/-- An Axios error for an HTTP 404 response. -/
def err404 : JsError :=
  { name := "Error", message := "Request failed with status code 404",
    responseStatus := some 404, isAxios := true }

/-- An Axios error for an HTTP 500 response. -/
def err500 : JsError :=
  { name := "Error", message := "Request failed with status code 500",
    responseStatus := some 500, isAxios := true }

/-- An operation that fails with HTTP 429 on its first two attempts and then
succeeds. -/
def op429 : Nat → Except JsError Unit :=
  fun attempt => if attempt < 2 then .error err429 else .ok ()

/-- An operation that always fails with HTTP 400. -/
def op400 : Nat → Except JsError Unit := fun _ => .error err400

/-- A metrics map containing one freshly registered subaccount. -/
def demoRegisteredMap : MetricsMap := [("A", freshMetrics "A")]

/-- Subaccount A of the spec scenario: success rate 0.95, last used at time 5. -/
def mA95 : SubaccountMetrics :=
  { uuid := "A", successRate := 95/100, lastUsed := 5,
    totalTransactions := 100, successfulTransactions := 95 }

/-- Subaccount B of the spec scenario: success rate 0.99, last used at time 5. -/
def mB99 : SubaccountMetrics :=
  { uuid := "B", successRate := 99/100, lastUsed := 5,
    totalTransactions := 100, successfulTransactions := 99 }

/-- The two-subaccount metrics state of the spec scenario (equal `lastUsed`). -/
def demoMap95 : MetricsMap := [("A", mA95), ("B", mB99)]

/-- A subaccount just below the 0.8 threshold that was used this instant
(recency 1), giving it the highest weighted score. -/
def mA79 : SubaccountMetrics :=
  { uuid := "A", successRate := 79/100, lastUsed := RECENCY_WINDOW,
    totalTransactions := 100, successfulTransactions := 79 }

/-- A subaccount just above the 0.8 threshold that has been stale for the
whole recency window (recency 0). -/
def mB81 : SubaccountMetrics :=
  { uuid := "B", successRate := 81/100, lastUsed := 0,
    totalTransactions := 100, successfulTransactions := 81 }

/-- Metrics state in which the below-threshold subaccount A holds the highest
weighted score. -/
def demoMapC3 : MetricsMap := [("A", mA79), ("B", mB81)]

/-- The payment of the repository's test fixture, with a card instrument that
carries no `encrypted` field. -/
def demoPaymentNoEnc : Payment :=
  { reference := "test-ref-123", amount := 1000, currency := "USD",
    card := { number := "4111111111111111", securityCode := "123",
              expiryMonth := "12", expiryYear := "25", encrypted := none },
    providerReference := some "test-transaction-id" }

/-- A decrypt stub for instantiating `authorizePayment`. -/
def demoDecryptFn : String → Except JsError String := fun _ => .ok ""

/-- A JSON.parse stub for instantiating `authorizePayment`. -/
def demoParseFn : String → Except JsError DecryptedCardData := fun _ => .ok {}

/-- A charge-gateway stub for instantiating `authorizePayment`. -/
def demoChargeGw : ChargePayload → Nat → Except JsError ChargeResponse :=
  fun _ _ => .ok { dataStatus := "success" }

/-- A gateway-response-parse stub for instantiating `retrievePayment`. -/
def demoParseGw : String → Except JsError GatewayResponseParsed :=
  fun _ => .ok {}

/-- Primitives whose block cipher is the identity permutation, witnessing
that the hypotheses of the round-trip theorem are satisfiable. -/
def idPrimitives : CipherPrimitives :=
  { sha256 := fun _ => List.replicate 32 0,
    aesEncrypt := fun _ b => b,
    aesDecrypt := fun _ b => b }

/-! ## Supporting lemmas -/

/-- The retry loop invokes the operation at most `fuel` times. -/
lemma retryLoop_count_le (op : Nat → Except JsError α) (retries : Nat) :
    ∀ fuel attempt, (retryLoop op retries attempt fuel).2.1 ≤ fuel := by
  intro fuel
  induction fuel with
  | zero => intro attempt; simp [retryLoop]
  | succ n ih =>
    intro attempt
    cases hop : op attempt with
    | ok a => simp [retryLoop, hop]
    | error e =>
      by_cases h : attempt = retries
      · subst h; simp [retryLoop, hop]
      · simp only [retryLoop, hop, if_neg h]
        have := ih (attempt + 1)
        omega

/-- On an operation that fails at every attempt, the retry loop runs out of
attempts, sleeping after each failure but the last, and propagates the
error. -/
lemma retryLoop_const_error (e : JsError) (retries : Nat) :
    ∀ fuel attempt, attempt + fuel = retries + 1 → 0 < fuel →
      retryLoop (fun _ => (.error e : Except JsError α)) retries attempt fuel =
        (.error e, fuel, (List.range' attempt (fuel - 1)).map
          (fun a => INITIAL_RETRY_DELAY * 2 ^ a)) := by
  intro fuel
  induction fuel with
  | zero => omega
  | succ n ih =>
    intro attempt hsum _
    cases n with
    | zero =>
      have h : attempt = retries := by omega
      subst h
      simp [retryLoop]
    | succ m =>
      have h : attempt ≠ retries := by omega
      have hrec := ih (attempt + 1) (by omega) (by omega)
      have hr : List.range' attempt (m + 1) = attempt :: List.range' (attempt + 1) m := rfl
      rw [retryLoop]
      simp only [if_neg h, hrec, Nat.add_sub_cancel, hr, List.map_cons]

/-- `executeWithRetry` on an operation that fails at every attempt: the
operation is invoked `retries + 1` times, a delay of
`INITIAL_RETRY_DELAY * 2 ^ attempt` is slept after every failed attempt
except the last, and the error is propagated unchanged. -/
lemma executeWithRetry_const_error (e : JsError) (retries : Nat) :
    executeWithRetry (fun _ => (.error e : Except JsError α)) retries =
      (.error e, retries + 1,
        (List.range retries).map (fun a => INITIAL_RETRY_DELAY * 2 ^ a)) := by
  unfold executeWithRetry
  rw [retryLoop_const_error e retries (retries + 1) 0 (by omega) (by omega)]
  simp [List.range_eq_range']

/-! ## Claim C1 -/

/-- C1, counterexample: an operation that always fails with an HTTP 400
response — which the ErrorClassifier table marks non-retryable — is invoked
4 times by `executeWithRetry` with its default retry count, not exactly
once, and delays are slept in between; only the final propagation of the
failure matches the claim. -/
theorem executeWithRetry_http400_counterexample :
    (executeWithRetry op400 MAX_RETRIES).2.1 = 4 ∧
    (executeWithRetry op400 MAX_RETRIES).2.1 ≠ 1 ∧
    (executeWithRetry op400 MAX_RETRIES).2.2 = [1000, 2000, 4000] ∧
    (executeWithRetry op400 MAX_RETRIES).1 = .error err400 := by decide

/-- C1, amended: `executeWithRetry` performs no error classification at all.
An operation that fails at every attempt — in particular one that always
fails with an HTTP 400 response — is invoked `retries + 1` times (4 with the
default `MAX_RETRIES = 3`), a delay of `INITIAL_RETRY_DELAY × 2 ^ attempt`
milliseconds is slept after every failed attempt except the last, and the
last failure is propagated unchanged. -/
theorem executeWithRetry_no_classification (e : JsError) (retries : Nat) :
    executeWithRetry (fun _ => (.error e : Except JsError Unit)) retries =
      (.error e, retries + 1,
        (List.range retries).map (fun a => INITIAL_RETRY_DELAY * 2 ^ a)) :=
  executeWithRetry_const_error e retries

/-! ## Claim C7 -/

/-- C7: an operation that fails with an HTTP 429 response on its first two
attempts and succeeds on the third is invoked exactly 3 times by
`executeWithRetry` with the default retry count and its success is returned
(with the two backoff delays slept in between); and for every operation the
number of invocations never exceeds `retries + 1` (4 with the default
`MAX_RETRIES = 3`). -/
theorem executeWithRetry_attempt_counts :
    executeWithRetry op429 MAX_RETRIES = (.ok (), 3, [1000, 2000]) ∧
    (∀ (α : Type) (op : Nat → Except JsError α) (retries : Nat),
      (executeWithRetry op retries).2.1 ≤ retries + 1) :=
  ⟨by decide, fun _ op retries => retryLoop_count_le op retries (retries + 1) 0⟩

/-! ## Claim C8 -/

/-- C8, counterexample: the gateway status string `"FAILED"` is none of the
four literal values `success`, `completed`, `failed`, `error`, yet the
mapping yields FAILED rather than PENDING, because the switch lower-cases
the status first. -/
theorem handleRexpayResponseStatus_case_counterexample :
    handleRexpayResponseStatus "FAILED" = .FAILED ∧
    ("FAILED" : String) ≠ "success" ∧ ("FAILED" : String) ≠ "completed" ∧
    ("FAILED" : String) ≠ "failed" ∧ ("FAILED" : String) ≠ "error" := by decide

/-- C8, amended: after lower-casing, the status-mapping function yields
SUCCESS exactly for `success` and `completed`, FAILED exactly for `failed`
and `error`, and PENDING for every other value. -/
theorem handleRexpayResponseStatus_spec (s : String) :
    (handleRexpayResponseStatus s = .SUCCESS ↔
      jsToLowerCase s = "success" ∨ jsToLowerCase s = "completed") ∧
    (handleRexpayResponseStatus s = .FAILED ↔
      jsToLowerCase s = "failed" ∨ jsToLowerCase s = "error") ∧
    (handleRexpayResponseStatus s = .PENDING ↔
      jsToLowerCase s ≠ "success" ∧ jsToLowerCase s ≠ "completed" ∧
      jsToLowerCase s ≠ "failed" ∧ jsToLowerCase s ≠ "error") := by
  unfold handleRexpayResponseStatus
  refine ⟨?_, ?_, ?_⟩ <;> (split <;> simp_all)

/-! ## Claim C10 -/

/-- C10: recording an outcome for a subaccount id with no entry in the
metrics map leaves the map — and hence every existing entry — unchanged and
creates no entry. -/
theorem updateSubaccountMetrics_unregistered_noop (m : MetricsMap)
    (id : String) (b : Bool) (h : mapGet m id = none) :
    updateSubaccountMetrics m id b = m := by
  simp [updateSubaccountMetrics, h]

/-- C10, witness: in a map holding only subaccount A, recording an outcome
for the unknown id `zzz` changes nothing. -/
theorem updateSubaccountMetrics_unregistered_noop_witness :
    mapGet demoRegisteredMap "zzz" = none ∧
    updateSubaccountMetrics demoRegisteredMap "zzz" true = demoRegisteredMap :=
  ⟨by decide, updateSubaccountMetrics_unregistered_noop _ _ _ (by decide)⟩

/-! ## Claim C9 -/

/-- Updating an existing key in place keeps it findable with the new value. -/
lemma find?_mapSet_mem (k : String) (v : SubaccountMetrics) :
    ∀ m : MetricsMap, m.any (fun p => p.1 = k) →
      (m.map (fun p => if p.1 = k then (k, v) else p)).find?
        (fun p => p.1 = k) = some (k, v) := by
  intro m
  induction m with
  | nil => simp
  | cons p rest ih =>
    intro h
    by_cases hp : p.1 = k
    · simp [hp]
    · have hr : rest.any (fun p => p.1 = k) := by
        simpa [List.any_cons, hp] using h
      simp [hp, ih hr]

/-- A key appended to a map that did not contain it is found with its
value. -/
lemma find?_append_fresh (k : String) (v : SubaccountMetrics) :
    ∀ m : MetricsMap, ¬ m.any (fun p => p.1 = k) →
      (m ++ [(k, v)]).find? (fun p => p.1 = k) = some (k, v) := by
  intro m
  induction m with
  | nil => simp
  | cons p rest ih =>
    intro h
    have hp : ¬ p.1 = k := by
      intro hc
      exact h (by simp [List.any_cons, hc])
    have hr : ¬ rest.any (fun p => p.1 = k) := by
      intro hc
      exact h (by simp [List.any_cons, hc])
    simp [hp, ih hr]

/-- Looking up the key just written by `mapSet` yields the stored value, in
both the update-in-place and the append branch of JS `Map.set`. -/
lemma mapGet_mapSet (m : MetricsMap) (k : String) (v : SubaccountMetrics) :
    mapGet (mapSet m k v) k = some v := by
  unfold mapGet mapSet
  by_cases h : m.any (fun p => p.1 = k)
  · simp only [if_pos h, find?_mapSet_mem k v m h]
  · simp only [if_neg h, find?_append_fresh k v m h]

/-- One `updateSubaccountMetrics` call on a registered id: the counter is
incremented, the success counter conditionally incremented, and the success
rate recomputed as their quotient. -/
lemma updateSubaccountMetrics_registered (m : MetricsMap) (id : String)
    (e : SubaccountMetrics) (b : Bool) (h : mapGet m id = some e) :
    mapGet (updateSubaccountMetrics m id b) id = some
      { e with totalTransactions := e.totalTransactions + 1,
               successfulTransactions := e.successfulTransactions + (if b then 1 else 0),
               successRate := ((e.successfulTransactions + (if b then 1 else 0) : Nat) : ℚ) /
                 ((e.totalTransactions + 1 : Nat) : ℚ) } := by
  simp [updateSubaccountMetrics, h, mapGet_mapSet]

/-- A non-empty sequence of recorded outcomes on a registered id adds its
length to the transaction counter, its number of successes to the success
counter, and leaves the stored rate equal to their quotient. -/
lemma recordOutcomes_cons (id : String) :
    ∀ (rest : List Bool) (b : Bool) (m : MetricsMap) (e : SubaccountMetrics),
      mapGet m id = some e →
      ∃ e2, mapGet (recordOutcomes m id (b :: rest)) id = some e2 ∧
        e2.totalTransactions = e.totalTransactions + (rest.length + 1) ∧
        e2.successfulTransactions = e.successfulTransactions + ((b :: rest).count true) ∧
        e2.successRate = (e2.successfulTransactions : ℚ) / (e2.totalTransactions : ℚ) := by
  intro rest
  induction rest with
  | nil =>
    intro b m e h
    refine ⟨_, by simpa [recordOutcomes] using updateSubaccountMetrics_registered m id e b h,
      by simp, ?_, by simp⟩
    cases b <;> simp [List.count_cons]
  | cons c rest ih =>
    intro b m e h
    have hstep := updateSubaccountMetrics_registered m id e b h
    obtain ⟨e2, hget, ht, hs, hr⟩ := ih c (updateSubaccountMetrics m id b) _ hstep
    refine ⟨e2, ?_, ?_, ?_, hr⟩
    · simpa [recordOutcomes] using hget
    · rw [ht]; simp; omega
    · rw [hs]; simp [List.count_cons]; cases b <;> cases c <;> simp <;> omega

/-- C9: after any non-empty sequence of recorded outcomes on a registered
subaccount id, the stored success rate equals
`successfulTransactions / totalTransactions` and lies in `[0, 1]`; the
sequence adds its length to `totalTransactions` and its number of `true`
outcomes to `successfulTransactions` (each call increments the former by one
and the latter exactly when the outcome was a success). -/
theorem recordOutcome_successRate_invariant (m : MetricsMap) (id : String)
    (e : SubaccountMetrics) (outcomes : List Bool)
    (hreg : mapGet m id = some e)
    (hle : e.successfulTransactions ≤ e.totalTransactions)
    (hne : outcomes ≠ []) :
    ∃ e2, mapGet (recordOutcomes m id outcomes) id = some e2 ∧
      e2.totalTransactions = e.totalTransactions + outcomes.length ∧
      e2.successfulTransactions = e.successfulTransactions + outcomes.count true ∧
      e2.successRate = (e2.successfulTransactions : ℚ) / (e2.totalTransactions : ℚ) ∧
      0 ≤ e2.successRate ∧ e2.successRate ≤ 1 := by
  obtain ⟨b, rest, rfl⟩ := List.exists_cons_of_ne_nil hne
  obtain ⟨e2, hget, ht, hs, hr⟩ := recordOutcomes_cons id rest b m e hreg
  have h1 : e2.successfulTransactions ≤ e2.totalTransactions := by
    rw [ht, hs]
    have hcle : (b :: rest).count true ≤ (b :: rest).length :=
      List.count_le_length true (b :: rest)
    simp at hcle ⊢
    omega
  have h2 : (0:ℚ) < (e2.totalTransactions : ℚ) := by
    rw [ht]
    exact_mod_cast Nat.succ_le_of_lt (by omega)
  refine ⟨e2, hget, by simpa using ht, by simpa using hs, hr, ?_, ?_⟩
  · rw [hr]; positivity
  · rw [hr, div_le_one h2]
    exact_mod_cast h1

/-- C9, witness: a freshly registered subaccount A after one success and one
failure. -/
theorem recordOutcome_successRate_invariant_witness :
    ∃ e2, mapGet (recordOutcomes demoRegisteredMap "A" [true, false]) "A" = some e2 ∧
      e2.totalTransactions = (freshMetrics "A").totalTransactions + [true, false].length ∧
      e2.successfulTransactions =
        (freshMetrics "A").successfulTransactions + [true, false].count true ∧
      e2.successRate = (e2.successfulTransactions : ℚ) / (e2.totalTransactions : ℚ) ∧
      0 ≤ e2.successRate ∧ e2.successRate ≤ 1 :=
  recordOutcome_successRate_invariant demoRegisteredMap "A" (freshMetrics "A")
    [true, false] (by decide) (by decide) (by decide)

/-! ## Claims C2 and C3: the subaccount selector -/

/-- The recency component `1 - min 1 ((now - lastUsed) / window)` is never
negative. -/
lemma recencyScore_nonneg (now lastUsed : ℚ) : 0 ≤ recencyScore now lastUsed := by
  unfold recencyScore
  have h := min_le_left (1:ℚ) ((now - lastUsed) / RECENCY_WINDOW)
  linarith

/-- Invariants of the selection loop: the best score never decreases, it
bounds the score of every eligible (at-threshold) entry scanned, and either
nothing was selected beyond the incoming state or the selected id is an
eligible entry whose score is the final best score. -/
lemma selectLoop_spec (cfg : SubaccountSelectionConfig) (now : ℚ) :
    ∀ (l : MetricsMap) (bs : ℚ) (best : Option String),
      bs ≤ (selectLoop cfg now l bs best).1 ∧
      (∀ p ∈ l, cfg.minSuccessRate ≤ p.2.successRate →
        subaccountScore cfg now p.2 ≤ (selectLoop cfg now l bs best).1) ∧
      (selectLoop cfg now l bs best = (bs, best) ∨
        ∃ p ∈ l, cfg.minSuccessRate ≤ p.2.successRate ∧
          (selectLoop cfg now l bs best).2 = some p.1 ∧
          (selectLoop cfg now l bs best).1 = subaccountScore cfg now p.2) := by
  intro l
  induction l with
  | nil => intro bs best; simp [selectLoop]
  | cons a rest ih =>
    intro bs best
    obtain ⟨a1, a2⟩ := a
    by_cases hskip : a2.successRate < cfg.minSuccessRate
    · have hstep : selectLoop cfg now ((a1, a2) :: rest) bs best =
        selectLoop cfg now rest bs best := by
        simp [selectLoop, hskip]
      obtain ⟨ih1, ih2, ih3⟩ := ih bs best
      rw [hstep]
      refine ⟨ih1, ?_, ?_⟩
      · intro p hp hpe
        rcases List.mem_cons.mp hp with h | h
        · rw [h] at hpe
          exact absurd hpe (not_le.mpr hskip)
        · exact ih2 p h hpe
      · rcases ih3 with h | ⟨p, hp, he, h2, h1⟩
        · exact Or.inl h
        · exact Or.inr ⟨p, List.mem_cons_of_mem _ hp, he, h2, h1⟩
    · by_cases himp : bs < subaccountScore cfg now a2
      · have hstep : selectLoop cfg now ((a1, a2) :: rest) bs best =
          selectLoop cfg now rest (subaccountScore cfg now a2) (some a1) := by
          simp [selectLoop, hskip, himp]
        obtain ⟨ih1, ih2, ih3⟩ := ih (subaccountScore cfg now a2) (some a1)
        rw [hstep]
        refine ⟨le_of_lt (lt_of_lt_of_le himp ih1), ?_, ?_⟩
        · intro p hp hpe
          rcases List.mem_cons.mp hp with h | h
          · rw [h]
            exact ih1
          · exact ih2 p h hpe
        · rcases ih3 with h | ⟨p, hp, he, h2, h1⟩
          · refine Or.inr ⟨(a1, a2), List.mem_cons_self _ _, not_lt.mp hskip, ?_, ?_⟩
            · rw [h]
            · rw [h]
          · exact Or.inr ⟨p, List.mem_cons_of_mem _ hp, he, h2, h1⟩
      · have hstep : selectLoop cfg now ((a1, a2) :: rest) bs best =
          selectLoop cfg now rest bs best := by
          simp [selectLoop, hskip, himp]
        obtain ⟨ih1, ih2, ih3⟩ := ih bs best
        rw [hstep]
        refine ⟨ih1, ?_, ?_⟩
        · intro p hp hpe
          rcases List.mem_cons.mp hp with h | h
          · rw [h]
            exact le_trans (not_lt.mp himp) ih1
          · exact ih2 p h hpe
        · rcases ih3 with h | ⟨p, hp, he, h2, h1⟩
          · exact Or.inl h
          · exact Or.inr ⟨p, List.mem_cons_of_mem _ hp, he, h2, h1⟩

/-- The selection loop settles on some id as soon as either an eligible entry
beats the incoming best score or an id is already selected. -/
lemma selectLoop_some (cfg : SubaccountSelectionConfig) (now : ℚ) :
    ∀ (l : MetricsMap) (bs : ℚ) (best : Option String),
      ((∃ p ∈ l, cfg.minSuccessRate ≤ p.2.successRate ∧
          bs < subaccountScore cfg now p.2) ∨ best ≠ none) →
      (selectLoop cfg now l bs best).2 ≠ none := by
  intro l
  induction l with
  | nil =>
    intro bs best h
    rcases h with ⟨p, hp, _⟩ | h
    · simp at hp
    · simpa [selectLoop] using h
  | cons a rest ih =>
    intro bs best h
    obtain ⟨a1, a2⟩ := a
    by_cases hskip : a2.successRate < cfg.minSuccessRate
    · rw [show selectLoop cfg now ((a1, a2) :: rest) bs best =
        selectLoop cfg now rest bs best from by simp [selectLoop, hskip]]
      apply ih
      rcases h with ⟨p, hp, he, hlt⟩ | h
      · rcases List.mem_cons.mp hp with hh | hh
        · rw [hh] at he
          exact absurd he (not_le.mpr hskip)
        · exact Or.inl ⟨p, hh, he, hlt⟩
      · exact Or.inr h
    · by_cases himp : bs < subaccountScore cfg now a2
      · rw [show selectLoop cfg now ((a1, a2) :: rest) bs best =
          selectLoop cfg now rest (subaccountScore cfg now a2) (some a1) from by
            simp [selectLoop, hskip, himp]]
        apply ih
        exact Or.inr (by simp)
      · rw [show selectLoop cfg now ((a1, a2) :: rest) bs best =
          selectLoop cfg now rest bs best from by simp [selectLoop, hskip, himp]]
        apply ih
        rcases h with ⟨p, hp, he, hlt⟩ | h
        · rcases List.mem_cons.mp hp with hh | hh
          · rw [hh] at hlt
            exact absurd hlt himp
          · exact Or.inl ⟨p, hh, he, hlt⟩
        · exact Or.inr h

/-- C2: with non-negative selection weights and threshold, every id the
selector returns belongs to the metrics map with a success rate at or above
`minSuccessRate`; and whenever at least one known subaccount is at or above
the threshold, the selector does return such an id. (A below-threshold id is
never returned at all: when every subaccount is below threshold this variant
returns none rather than a degraded choice.) -/
theorem selectBestSubaccount_threshold (cfg : SubaccountSelectionConfig) (now : ℚ)
    (m : MetricsMap)
    (hw1 : 0 ≤ cfg.successRateWeight) (hw2 : 0 ≤ cfg.recencyWeight)
    (hmin : 0 ≤ cfg.minSuccessRate) :
    (∀ id, selectBestSubaccount cfg now m = some id →
      ∃ mt, (id, mt) ∈ m ∧ cfg.minSuccessRate ≤ mt.successRate) ∧
    ((∃ p ∈ m, cfg.minSuccessRate ≤ p.2.successRate) →
      ∃ id, selectBestSubaccount cfg now m = some id ∧
        ∃ mt, (id, mt) ∈ m ∧ cfg.minSuccessRate ≤ mt.successRate) := by
  have parta : ∀ id, selectBestSubaccount cfg now m = some id →
      ∃ mt, (id, mt) ∈ m ∧ cfg.minSuccessRate ≤ mt.successRate := by
    intro id h
    unfold selectBestSubaccount at h
    by_cases hm : m = []
    · simp [hm] at h
    · rw [if_neg hm] at h
      obtain ⟨_, _, h3⟩ := selectLoop_spec cfg now m (-1) none
      rcases h3 with heq | ⟨p, hp, he, h2, _⟩
      · rw [heq] at h
        simp at h
      · rw [h2] at h
        obtain rfl : p.1 = id := by injection h
        exact ⟨p.2, by simpa using hp, he⟩
  refine ⟨parta, ?_⟩
  intro ⟨p, hp, he⟩
  have hm : m ≠ [] := List.ne_nil_of_mem hp
  have hscore : (-1 : ℚ) < subaccountScore cfg now p.2 := by
    have h1 : 0 ≤ p.2.successRate := le_trans hmin he
    have h2 : 0 ≤ recencyScore now p.2.lastUsed := recencyScore_nonneg _ _
    have : 0 ≤ subaccountScore cfg now p.2 :=
      add_nonneg (mul_nonneg h1 hw1) (mul_nonneg h2 hw2)
    linarith
  have hne : (selectLoop cfg now m (-1) none).2 ≠ none :=
    selectLoop_some cfg now m (-1) none (Or.inl ⟨p, hp, he, hscore⟩)
  have hsel : selectBestSubaccount cfg now m = (selectLoop cfg now m (-1) none).2 := by
    unfold selectBestSubaccount
    rw [if_neg hm]
  rcases Option.ne_none_iff_exists.mp hne with ⟨id, hid⟩
  refine ⟨id, by rw [hsel, ← hid], parta id (by rw [hsel, ← hid])⟩

/-- C2, witness: on a map holding A at rate 1/2 and B at rate 9/10 under the
default configuration (threshold 0.8), both conjuncts hold at the concrete
inputs. -/
theorem selectBestSubaccount_threshold_witness :
    (∀ id, selectBestSubaccount defaultSelectionConfig 5 demoMap95 = some id →
      ∃ mt, (id, mt) ∈ demoMap95 ∧
        defaultSelectionConfig.minSuccessRate ≤ mt.successRate) ∧
    ((∃ p ∈ demoMap95, defaultSelectionConfig.minSuccessRate ≤ p.2.successRate) →
      ∃ id, selectBestSubaccount defaultSelectionConfig 5 demoMap95 = some id ∧
        ∃ mt, (id, mt) ∈ demoMap95 ∧
          defaultSelectionConfig.minSuccessRate ≤ mt.successRate) :=
  selectBestSubaccount_threshold defaultSelectionConfig 5 demoMap95
    (by norm_num [defaultSelectionConfig]) (by norm_num [defaultSelectionConfig])
    (by norm_num [defaultSelectionConfig])

/-- C3, counterexample: in a state where below-threshold subaccount A
(rate 0.79, just used, recency 1) has a strictly higher weighted score than
above-threshold subaccount B (rate 0.81, stale, recency 0), the selector
returns B, not the highest-scoring candidate A. -/
theorem selectBestSubaccount_top_score_counterexample :
    selectBestSubaccount defaultSelectionConfig RECENCY_WINDOW demoMapC3 = some "B" ∧
    subaccountScore defaultSelectionConfig RECENCY_WINDOW mB81 <
      subaccountScore defaultSelectionConfig RECENCY_WINDOW mA79 ∧
    mA79.successRate < defaultSelectionConfig.minSuccessRate := by
  refine ⟨?_, ?_, ?_⟩
  · unfold selectBestSubaccount
    rw [if_neg (by simp [demoMapC3])]
    norm_num [demoMapC3, selectLoop, mA79, mB81,
      subaccountScore, recencyScore, defaultSelectionConfig, RECENCY_WINDOW]
  · norm_num [subaccountScore, recencyScore, mA79, mB81, defaultSelectionConfig,
      RECENCY_WINDOW]
  · norm_num [mA79, defaultSelectionConfig]

/-- C3, amended: the selector returns the id with the highest score
`successRate × 0.7 + recency × 0.3` (recency being
`1 − min(1, (now − lastUsed) / 30 days)`) among the candidates whose success
rate is at or above `minSuccessRate`; below-threshold candidates are excluded
even when their score is highest. In particular, for two at-threshold
subaccounts with equal `lastUsed` and success rates 0.95 and 0.99, it returns
the one with rate 0.99 (see the witness). -/
theorem selectBestSubaccount_max_among_eligible (cfg : SubaccountSelectionConfig)
    (now : ℚ) (m : MetricsMap) (id : String)
    (h : selectBestSubaccount cfg now m = some id) :
    ∃ mt, (id, mt) ∈ m ∧ cfg.minSuccessRate ≤ mt.successRate ∧
      ∀ p ∈ m, cfg.minSuccessRate ≤ p.2.successRate →
        subaccountScore cfg now p.2 ≤ subaccountScore cfg now mt := by
  unfold selectBestSubaccount at h
  by_cases hm : m = []
  · simp [hm] at h
  · rw [if_neg hm] at h
    obtain ⟨_, hbound, h3⟩ := selectLoop_spec cfg now m (-1) none
    rcases h3 with heq | ⟨p, hp, he, h2, h1⟩
    · rw [heq] at h
      simp at h
    · rw [h2] at h
      obtain rfl : p.1 = id := by injection h
      refine ⟨p.2, by simpa using hp, he, ?_⟩
      intro q hq hqe
      have := hbound q hq hqe
      rw [h1] at this
      exact this

/-- C3, witness: the spec scenario — A at rate 0.95 and B at rate 0.99 with
equal `lastUsed` — selects B, and B is eligible with the maximal score among
eligible candidates. -/
theorem selectBestSubaccount_max_among_eligible_witness :
    selectBestSubaccount defaultSelectionConfig 5 demoMap95 = some "B" ∧
    (∃ mt, ("B", mt) ∈ demoMap95 ∧
      defaultSelectionConfig.minSuccessRate ≤ mt.successRate ∧
      ∀ p ∈ demoMap95, defaultSelectionConfig.minSuccessRate ≤ p.2.successRate →
        subaccountScore defaultSelectionConfig 5 p.2 ≤
          subaccountScore defaultSelectionConfig 5 mt) :=
  have hb : selectBestSubaccount defaultSelectionConfig 5 demoMap95 = some "B" := by
    unfold selectBestSubaccount
    rw [if_neg (by simp [demoMap95])]
    norm_num [demoMap95, selectLoop, mA95, mB99,
      subaccountScore, recencyScore, defaultSelectionConfig, RECENCY_WINDOW]
  ⟨hb, selectBestSubaccount_max_among_eligible _ _ _ _ hb⟩

/-! ## Claim C5 -/

/-- C5, amended: for a payment whose card instrument carries no `encrypted`
field, `authorizePayment` makes no network call and leaves the metrics map
untouched, but the error it throws is the catch block's `PaymentError`
("Failed to authorize payment: No encrypted card details found") wrapping the
internal ValidationError, not the ValidationError itself. -/
theorem authorizePayment_missing_encrypted (m : MetricsMap) (p : Payment)
    (dfn : String → Except JsError String)
    (pfn : String → Except JsError DecryptedCardData)
    (gw : ChargePayload → Nat → Except JsError ChargeResponse)
    (h : p.card.encrypted = none) :
    authorizePayment m p dfn pfn gw =
      (.error { name := "PaymentError",
                message := "Failed to authorize payment: No encrypted card details found",
                original := some ("ValidationError", "No encrypted card details found") },
       m, 0) := by
  simp [authorizePayment, h, JsError.errorMessage]

/-- C5, witness: the repository's test payment without an `encrypted` field,
with stub collaborators: the PaymentError is thrown with zero network
calls. -/
theorem authorizePayment_missing_encrypted_witness :
    authorizePayment [] demoPaymentNoEnc demoDecryptFn demoParseFn demoChargeGw =
      (.error { name := "PaymentError",
                message := "Failed to authorize payment: No encrypted card details found",
                original := some ("ValidationError", "No encrypted card details found") },
       [], 0) :=
  authorizePayment_missing_encrypted [] demoPaymentNoEnc demoDecryptFn demoParseFn
    demoChargeGw rfl

/-- C5, counterexample: on a concrete payment with no `encrypted` field the
error `authorizePayment` propagates is a PaymentError — its class name is not
ValidationError, because the catch block wraps every thrown error — although
no network call is made. -/
theorem authorizePayment_missing_encrypted_counterexample :
    ((authorizePayment [] demoPaymentNoEnc demoDecryptFn demoParseFn demoChargeGw).1 =
      .error { name := "PaymentError",
               message := "Failed to authorize payment: No encrypted card details found",
               original := some ("ValidationError", "No encrypted card details found") }) ∧
    (∀ te : ThrownError,
      (authorizePayment [] demoPaymentNoEnc demoDecryptFn demoParseFn demoChargeGw).1 =
        .error te → te.name ≠ "ValidationError") ∧
    (authorizePayment [] demoPaymentNoEnc demoDecryptFn demoParseFn demoChargeGw).2.2 = 0 := by
  refine ⟨by decide, ?_, by decide⟩
  intro te hte
  have hval : te =
      { name := "PaymentError",
        message := "Failed to authorize payment: No encrypted card details found",
        original := some ("ValidationError", "No encrypted card details found") } := by
    have h1 := authorizePayment_missing_encrypted [] demoPaymentNoEnc demoDecryptFn
      demoParseFn demoChargeGw rfl
    rw [h1] at hte
    injection hte with h2
    exact h2.symm
  rw [hval]
  decide

/-! ## Claim C6 -/

/-- C6: for every non-empty payment id, when the gateway answers the retrieve
call with an Axios HTTP 404 error, `retrievePayment` returns (not throws) a
FAILED result with message "Payment not found"; for any other HTTP status it
throws a PaymentError ("Failed to retrieve payment"). -/
theorem retrievePayment_notFound (pid : String)
    (parseGw : String → Except JsError GatewayResponseParsed)
    (hpid : pid ≠ "") :
    (∀ e : JsError, e.isAxios = true → e.responseStatus = some 404 →
      retrievePayment pid (fun _ => .error e) parseGw =
        .ok { transactionId := pid, status := .FAILED, message := "Payment not found" }) ∧
    (∀ (e : JsError) (st : Nat), e.isAxios = true → e.responseStatus = some st →
      st ≠ 404 →
      retrievePayment pid (fun _ => .error e) parseGw =
        .error { name := "PaymentError", message := "Failed to retrieve payment",
                 original := some (e.name, e.message) }) := by
  constructor
  · intro e hax h404
    simp [retrievePayment, hpid, executeWithRetry_const_error, hax, h404]
  · intro e st hax hst hne
    have h404 : ¬ e.responseStatus = some 404 := by
      rw [hst]
      simp [hne]
    simp [retrievePayment, hpid, executeWithRetry_const_error, hax, h404]

/-- C6, witness: `retrievePayment("missing-id")` against a constantly-404
gateway yields the FAILED "Payment not found" result, and against a
constantly-500 gateway throws the PaymentError. -/
theorem retrievePayment_notFound_witness :
    retrievePayment "missing-id" (fun _ => .error err404) demoParseGw =
      .ok { transactionId := "missing-id", status := .FAILED,
            message := "Payment not found" } ∧
    retrievePayment "missing-id" (fun _ => .error err500) demoParseGw =
      .error { name := "PaymentError", message := "Failed to retrieve payment",
               original := some (err500.name, err500.message) } :=
  ⟨(retrievePayment_notFound "missing-id" demoParseGw (by decide)).1 err404 rfl rfl,
   (retrievePayment_notFound "missing-id" demoParseGw (by decide)).2 err500 500 rfl rfl
     (by decide)⟩


/-! ## Claim C4: the encryption codec -/

lemma xorBytes_length (a b : List Nat) : (xorBytes a b).length = min a.length b.length := by
  simp [xorBytes]

lemma xorBytes_cancel : ∀ (p b : List Nat), p.length = b.length →
    xorBytes p (xorBytes p b) = b := by
  intro p
  induction p with
  | nil =>
    intro b h
    simp only [xorBytes, List.zipWith_nil_left]
    exact (List.length_eq_zero.mp h.symm).symm
  | cons x xs ih =>
    intro b h
    cases b with
    | nil => simp at h
    | cons y ys =>
      simp only [xorBytes, List.zipWith_cons_cons]
      have hx : Nat.xor x (Nat.xor x y) = y := Nat.xor_cancel_left x y
      rw [hx]
      have hys := ih ys (by simpa using h)
      simp only [xorBytes] at hys
      rw [hys]

lemma xorBytes_lt : ∀ (a b : List Nat), (∀ x ∈ a, x < 256) → (∀ x ∈ b, x < 256) →
    ∀ x ∈ xorBytes a b, x < 256 := by
  intro a
  induction a with
  | nil => intro b _ _ x hx; simp [xorBytes] at hx
  | cons p ps ih =>
    intro b ha hb x hx
    cases b with
    | nil => simp [xorBytes] at hx
    | cons q qs =>
      simp only [xorBytes, List.zipWith_cons_cons, List.mem_cons] at hx
      rcases hx with rfl | hx
      · have h1 : p < 2 ^ 8 := by
          have := ha p (by simp)
          omega
        have h2 : q < 2 ^ 8 := by
          have := hb q (by simp)
          omega
        exact Nat.xor_lt_two_pow h1 h2
      · exact ih qs (fun y hy => ha y (by simp [hy])) (fun y hy => hb y (by simp [hy])) x hx

lemma getLast?_replicate_pos (n : Nat) (a : Nat) (h : 0 < n) :
    (List.replicate n a).getLast? = some a := by
  induction n with
  | zero => omega
  | succ m ih =>
    cases m with
    | zero => simp
    | succ k =>
      rw [List.replicate_succ, List.replicate_succ, List.getLast?_cons_cons,
        ← List.replicate_succ]
      exact ih (by omega)

lemma formatIV_length (iv : List Nat) : (formatIV iv).length = 16 := by
  simp [formatIV]
  omega

lemma formatIV_lt (iv : List Nat) (h : ∀ x ∈ iv, x < 256) :
    ∀ x ∈ formatIV iv, x < 256 := by
  intro x hx
  unfold formatIV at hx
  have := List.mem_of_mem_take hx
  rcases List.mem_append.mp this with h1 | h2
  · exact h x h1
  · rw [List.eq_of_mem_replicate h2]
    omega

lemma pkcs7pad_mod (l : List Nat) : (pkcs7pad l).length % 16 = 0 := by
  simp [pkcs7pad]
  omega

lemma pkcs7pad_lt (l : List Nat) (h : ∀ x ∈ l, x < 256) :
    ∀ x ∈ pkcs7pad l, x < 256 := by
  intro x hx
  unfold pkcs7pad at hx
  rcases List.mem_append.mp hx with h1 | h2
  · exact h x h1
  · rw [List.eq_of_mem_replicate h2]
    omega

lemma pkcs7_roundtrip (l : List Nat) : pkcs7unpad (pkcs7pad l) = some l := by
  unfold pkcs7pad pkcs7unpad
  set p := 16 - l.length % 16 with hp
  have hp1 : 1 ≤ p := by omega
  have hp16 : p ≤ 16 := by omega
  have hne : List.replicate p p ≠ [] := by
    simp [List.replicate_eq_nil_iff]
    omega
  have hg : (l ++ List.replicate p p).getLast? = some p := by
    rw [List.getLast?_append_of_ne_nil _ hne, getLast?_replicate_pos p p (by omega)]
  have hlen : (l ++ List.replicate p p).length = l.length + p := by simp
  have hcond : 1 ≤ p ∧ p ≤ 16 ∧ p ≤ (l ++ List.replicate p p).length ∧
      (((l ++ List.replicate p p)).drop ((l ++ List.replicate p p).length - p)).all
        (· = p) := by
    refine ⟨hp1, hp16, by simp, ?_⟩
    have hd : (l ++ List.replicate p p).length - p = l.length := by
      rw [hlen]; omega
    rw [hd, List.drop_left]
    simp [List.all_eq_true]
  simp only [hg, if_pos hcond]
  have hd : (l ++ List.replicate p p).length - p = l.length := by
    rw [hlen]; omega
  rw [hd, List.take_left]

end Rexpay

namespace Rexpay

lemma joinBlocks_toBlocksF : ∀ (fuel : Nat) (l : List Nat), l.length ≤ fuel →
    joinBlocks (toBlocksF fuel l) = l := by
  intro fuel
  induction fuel with
  | zero =>
    intro l h
    have : l = [] := List.length_eq_zero.mp (by omega)
    subst this
    simp [toBlocksF, joinBlocks]
  | succ n ih =>
    intro l h
    cases l with
    | nil => simp [toBlocksF, joinBlocks]
    | cons x xs =>
      simp only [toBlocksF, joinBlocks, List.flatten_cons]
      have hrec := ih ((x :: xs).drop 16)
        (by simp only [List.length_drop, List.length_cons] at h ⊢; omega)
      simp only [joinBlocks] at hrec
      rw [hrec, List.take_append_drop]

lemma toBlocksF_length_mem : ∀ (fuel : Nat) (l : List Nat), l.length ≤ fuel →
    l.length % 16 = 0 → ∀ b ∈ toBlocksF fuel l, b.length = 16 := by
  intro fuel
  induction fuel with
  | zero =>
    intro l h hm b hb
    have : l = [] := List.length_eq_zero.mp (by omega)
    subst this
    simp [toBlocksF] at hb
  | succ n ih =>
    intro l h hm b hb
    cases l with
    | nil => simp [toBlocksF] at hb
    | cons x xs =>
      simp only [toBlocksF, List.mem_cons] at hb
      have h16 : 16 ≤ (x :: xs).length := by
        rcases Nat.lt_or_ge (x :: xs).length 16 with hc | hc
        · exfalso
          have hmod : (x :: xs).length % 16 = (x :: xs).length := Nat.mod_eq_of_lt hc
          rw [hm] at hmod
          simp at hmod
        · exact hc
      rcases hb with rfl | hb
      · rw [List.length_take]
        simp only [List.length_cons] at h16 ⊢
        omega
      · refine ih _ ?_ ?_ b hb
        · simp only [List.length_drop, List.length_cons] at h ⊢
          omega
        · simp only [List.length_drop, List.length_cons] at hm h16 ⊢
          omega

lemma toBlocksF_mem_lt : ∀ (fuel : Nat) (l : List Nat), (∀ x ∈ l, x < 256) →
    ∀ b ∈ toBlocksF fuel l, ∀ x ∈ b, x < 256 := by
  intro fuel
  induction fuel with
  | zero =>
    intro l _ b hb
    cases l <;> simp [toBlocksF] at hb
  | succ n ih =>
    intro l hl b hb
    cases l with
    | nil => simp [toBlocksF] at hb
    | cons y ys =>
      simp only [toBlocksF, List.mem_cons] at hb
      rcases hb with rfl | hb
      · intro x hx
        exact hl x (List.mem_of_mem_take hx)
      · exact ih _ (fun x hx => hl x (List.mem_of_mem_drop hx)) b hb

lemma toBlocksF_join : ∀ (bs : List (List Nat)) (fuel : Nat),
    (∀ b ∈ bs, b.length = 16) → (joinBlocks bs).length ≤ fuel →
    toBlocksF fuel (joinBlocks bs) = bs := by
  intro bs
  induction bs with
  | nil => intro fuel _ _; cases fuel <;> simp [toBlocksF, joinBlocks]
  | cons b rest ih =>
    intro fuel hlen hfuel
    have hb : b.length = 16 := hlen b (by simp)
    have hjoin : joinBlocks (b :: rest) = b ++ joinBlocks rest := by
      simp [joinBlocks]
    have hne : joinBlocks (b :: rest) ≠ [] := by
      rw [hjoin]
      intro hc
      rcases List.append_eq_nil.mp hc with ⟨hb1, _⟩
      rw [hb1] at hb
      simp at hb
    cases fuel with
    | zero =>
      exfalso
      rw [hjoin] at hfuel
      simp [hb] at hfuel
    | succ n =>
      have hcons : ∃ y ys, joinBlocks (b :: rest) = y :: ys :=
        List.exists_cons_of_ne_nil hne
      obtain ⟨y, ys, hy⟩ := hcons
      rw [hy]
      simp only [toBlocksF]
      rw [← hy, hjoin]
      have ht : (b ++ joinBlocks rest).take 16 = b := by
        rw [← hb, List.take_left]
      have hd : (b ++ joinBlocks rest).drop 16 = joinBlocks rest := by
        rw [← hb, List.drop_left]
      rw [ht, hd]
      congr 1
      apply ih n (fun q hq => hlen q (by simp [hq]))
      rw [hjoin] at hfuel
      simp [hb] at hfuel
      omega

lemma cbcEncryptBlocks_spec (E : List Nat → List Nat)
    (hlen : ∀ b, b.length = 16 → (E b).length = 16)
    (hbytes : ∀ b, b.length = 16 → (∀ x ∈ b, x < 256) → ∀ x ∈ E b, x < 256) :
    ∀ (bs : List (List Nat)) (prev : List Nat),
      prev.length = 16 → (∀ x ∈ prev, x < 256) →
      (∀ b ∈ bs, b.length = 16 ∧ ∀ x ∈ b, x < 256) →
      ∀ c ∈ cbcEncryptBlocks E prev bs, c.length = 16 ∧ ∀ x ∈ c, x < 256 := by
  intro bs
  induction bs with
  | nil => intro prev _ _ _ c hc; simp [cbcEncryptBlocks] at hc
  | cons b rest ih =>
    intro prev hp hpb hbs c hc
    have hb := hbs b (by simp)
    have hxlen : (xorBytes prev b).length = 16 := by
      rw [xorBytes_length, hp, hb.1]
      simp
    have hxlt : ∀ x ∈ xorBytes prev b, x < 256 := xorBytes_lt prev b hpb hb.2
    have hclen : (E (xorBytes prev b)).length = 16 := hlen _ hxlen
    have hclt : ∀ x ∈ E (xorBytes prev b), x < 256 := hbytes _ hxlen hxlt
    simp only [cbcEncryptBlocks, List.mem_cons] at hc
    rcases hc with rfl | hc
    · exact ⟨hclen, hclt⟩
    · exact ih (E (xorBytes prev b)) hclen hclt
        (fun q hq => hbs q (by simp [hq])) c hc

lemma cbc_roundtrip (E D : List Nat → List Nat)
    (hinv : ∀ b, b.length = 16 → D (E b) = b)
    (hlen : ∀ b, b.length = 16 → (E b).length = 16) :
    ∀ (bs : List (List Nat)) (prev : List Nat), prev.length = 16 →
      (∀ b ∈ bs, b.length = 16) →
      cbcDecryptBlocks D prev (cbcEncryptBlocks E prev bs) = bs := by
  intro bs
  induction bs with
  | nil => intro prev _ _; simp [cbcEncryptBlocks, cbcDecryptBlocks]
  | cons b rest ih =>
    intro prev hp hbs
    have hb : b.length = 16 := hbs b (by simp)
    have hxlen : (xorBytes prev b).length = 16 := by
      rw [xorBytes_length, hp, hb]
      simp
    simp only [cbcEncryptBlocks, cbcDecryptBlocks]
    rw [hinv _ hxlen, xorBytes_cancel prev b (by omega),
      ih (E (xorBytes prev b)) (hlen _ hxlen) (fun q hq => hbs q (by simp [hq]))]

lemma b64Char_ne_61 : ∀ i, i < 64 → b64Char i ≠ 61 := by decide

lemma b64Index_b64Char : ∀ i, i < 64 → b64Index (b64Char i) = i := by decide

lemma b64Char_lt : ∀ i, i < 64 → b64Char i < 256 := by decide

lemma b64_chunk3 (a b c : Nat) (ha : a < 256) (hb : b < 256) (hc : c < 256) :
    b64DecodeGroup (((b64EncodeChunk [a, b, c]).filter (fun x => x ≠ 61)).map b64Index) =
      [a, b, c] := by
  have h0 : a / 4 < 64 := by omega
  have h1 : a % 4 * 16 + b / 16 < 64 := by omega
  have h2 : b % 16 * 4 + c / 64 < 64 := by omega
  have h3 : c % 64 < 64 := by omega
  have e0 : (b64EncodeChunk [a, b, c]).filter (fun x => x ≠ 61) =
      [b64Char (a / 4), b64Char (a % 4 * 16 + b / 16),
       b64Char (b % 16 * 4 + c / 64), b64Char (c % 64)] := by
    simp [b64EncodeChunk, List.filter,
      b64Char_ne_61 _ h0, b64Char_ne_61 _ h1, b64Char_ne_61 _ h2, b64Char_ne_61 _ h3]
  rw [e0]
  simp only [List.map_cons, List.map_nil, b64Index_b64Char _ h0, b64Index_b64Char _ h1,
    b64Index_b64Char _ h2, b64Index_b64Char _ h3, b64DecodeGroup]
  simp only [List.cons.injEq, and_true]
  refine ⟨?_, ?_, ?_⟩ <;> omega

lemma b64_chunk2 (a b : Nat) (ha : a < 256) (hb : b < 256) :
    b64DecodeGroup (((b64EncodeChunk [a, b]).filter (fun x => x ≠ 61)).map b64Index) =
      [a, b] := by
  have h0 : a / 4 < 64 := by omega
  have h1 : a % 4 * 16 + b / 16 < 64 := by omega
  have h2 : b % 16 * 4 < 64 := by omega
  have e0 : (b64EncodeChunk [a, b]).filter (fun x => x ≠ 61) =
      [b64Char (a / 4), b64Char (a % 4 * 16 + b / 16), b64Char (b % 16 * 4)] := by
    simp [b64EncodeChunk, List.filter,
      b64Char_ne_61 _ h0, b64Char_ne_61 _ h1, b64Char_ne_61 _ h2]
  rw [e0]
  simp only [List.map_cons, List.map_nil, b64Index_b64Char _ h0, b64Index_b64Char _ h1,
    b64Index_b64Char _ h2, b64DecodeGroup]
  simp only [List.cons.injEq, and_true]
  refine ⟨?_, ?_⟩ <;> omega

lemma b64_chunk1 (a : Nat) (ha : a < 256) :
    b64DecodeGroup (((b64EncodeChunk [a]).filter (fun x => x ≠ 61)).map b64Index) =
      [a] := by
  have h0 : a / 4 < 64 := by omega
  have h1 : a % 4 * 16 < 64 := by omega
  have e0 : (b64EncodeChunk [a]).filter (fun x => x ≠ 61) =
      [b64Char (a / 4), b64Char (a % 4 * 16)] := by
    simp [b64EncodeChunk, List.filter, b64Char_ne_61 _ h0, b64Char_ne_61 _ h1]
  rw [e0]
  simp only [List.map_cons, List.map_nil, b64Index_b64Char _ h0, b64Index_b64Char _ h1,
    b64DecodeGroup]
  simp only [List.cons.injEq, and_true]
  omega

lemma b64EncodeChunk_length (l : List Nat) (hne : l ≠ []) (hle : l.length ≤ 3) :
    (b64EncodeChunk l).length = 4 := by
  match l, hne, hle with
  | [a], _, _ => simp [b64EncodeChunk]
  | [a, b], _, _ => simp [b64EncodeChunk]
  | [a, b, c], _, _ => simp [b64EncodeChunk]

lemma b64DecodeF_encodeF :
    ∀ (fuelE : Nat) (l : List Nat) (fuelD : Nat), (∀ x ∈ l, x < 256) →
      l.length ≤ fuelE → l.length ≤ fuelD →
      b64DecodeF fuelD (b64EncodeF fuelE l) = l := by
  intro fuelE
  induction fuelE with
  | zero =>
    intro l fuelD _ h _
    have : l = [] := List.length_eq_zero.mp (by omega)
    subst this
    cases fuelD <;> simp [b64EncodeF, b64DecodeF]
  | succ n ih =>
    intro l fuelD hlt h hd
    cases l with
    | nil => cases fuelD <;> simp [b64EncodeF, b64DecodeF]
    | cons x xs =>
      cases fuelD with
      | zero => simp at hd
      | succ m =>
        have htake_ne : (x :: xs).take 3 ≠ [] := by simp
        have htake_le : ((x :: xs).take 3).length ≤ 3 := by
          rw [List.length_take]
          omega
        have hchunklen : (b64EncodeChunk ((x :: xs).take 3)).length = 4 :=
          b64EncodeChunk_length _ htake_ne htake_le
        have henc : b64EncodeF (n + 1) (x :: xs) =
            b64EncodeChunk ((x :: xs).take 3) ++ b64EncodeF n ((x :: xs).drop 3) := rfl
        rw [henc]
        have henc_ne : b64EncodeChunk ((x :: xs).take 3) ++
            b64EncodeF n ((x :: xs).drop 3) ≠ [] := by
          intro hcontra
          rcases List.append_eq_nil.mp hcontra with ⟨hc1, _⟩
          rw [hc1] at hchunklen
          simp at hchunklen
        obtain ⟨y, ys, hy⟩ := List.exists_cons_of_ne_nil henc_ne
        rw [hy]
        simp only [b64DecodeF]
        rw [← hy]
        have htk : (b64EncodeChunk ((x :: xs).take 3) ++
            b64EncodeF n ((x :: xs).drop 3)).take 4 = b64EncodeChunk ((x :: xs).take 3) := by
          rw [← hchunklen, List.take_left]
        have hdr : (b64EncodeChunk ((x :: xs).take 3) ++
            b64EncodeF n ((x :: xs).drop 3)).drop 4 = b64EncodeF n ((x :: xs).drop 3) := by
          rw [← hchunklen, List.drop_left]
        rw [htk, hdr]
        have hrest : b64DecodeF m (b64EncodeF n ((x :: xs).drop 3)) = (x :: xs).drop 3 := by
          apply ih
          · intro q hq
            exact hlt q (List.mem_of_mem_drop hq)
          · simp only [List.length_drop, List.length_cons] at h ⊢
            omega
          · simp only [List.length_drop, List.length_cons] at hd ⊢
            omega
        rw [hrest]
        have hchunk : b64DecodeGroup ((((b64EncodeChunk ((x :: xs).take 3)).filter
            (fun c => c ≠ 61)).map b64Index)) = (x :: xs).take 3 := by
          match xs with
          | [] => exact b64_chunk1 x (hlt x (by simp))
          | [b] => exact b64_chunk2 x b (hlt x (by simp)) (hlt b (by simp))
          | b :: c :: rest =>
            have : ((x :: b :: c :: rest).take 3) = [x, b, c] := rfl
            rw [this]
            exact b64_chunk3 x b c (hlt x (by simp)) (hlt b (by simp)) (hlt c (by simp))
        rw [hchunk, List.take_append_drop]

lemma b64_roundtrip_aux : ∀ (fuel : Nat) (l : List Nat), l.length ≤ fuel →
    l.length ≤ (b64EncodeF fuel l).length := by
  intro fuel
  induction fuel with
  | zero =>
    intro l h
    have : l = [] := List.length_eq_zero.mp (by omega)
    subst this
    simp
  | succ n ih =>
    intro l h
    cases l with
    | nil => simp
    | cons x xs =>
      have henc : b64EncodeF (n + 1) (x :: xs) =
          b64EncodeChunk ((x :: xs).take 3) ++ b64EncodeF n ((x :: xs).drop 3) := rfl
      rw [henc]
      have hchunklen : (b64EncodeChunk ((x :: xs).take 3)).length = 4 :=
        b64EncodeChunk_length _ (by simp) (by rw [List.length_take]; omega)
      have hrec := ih ((x :: xs).drop 3)
        (by simp only [List.length_drop, List.length_cons] at h ⊢; omega)
      rw [List.length_append, hchunklen]
      simp only [List.length_drop, List.length_cons] at hrec ⊢
      omega

lemma b64_roundtrip (l : List Nat) (h : ∀ x ∈ l, x < 256) :
    b64Decode (b64Encode l) = l := by
  unfold b64Encode b64Decode
  exact b64DecodeF_encodeF l.length l (b64EncodeF l.length l).length h le_rfl
    (b64_roundtrip_aux l.length l le_rfl)

lemma joinBlocks_length_16 : ∀ (bs : List (List Nat)), (∀ b ∈ bs, b.length = 16) →
    (joinBlocks bs).length = 16 * bs.length := by
  intro bs
  induction bs with
  | nil => intro _; simp [joinBlocks]
  | cons b rest ih =>
    intro h
    simp only [joinBlocks, List.flatten_cons, List.length_append, List.length_cons]
    have hb := h b (by simp)
    have := ih (fun q hq => h q (by simp [hq]))
    simp only [joinBlocks] at this
    rw [hb, this]
    ring

/-- C4: the encrypt/decrypt round trip. Text, key and IV are byte strings;
the SHA-256 digest and the AES-256 block permutation are the external
primitives, assumed only to be what they are: a keyed permutation of 16-byte
blocks (with its inverse) that outputs bytes. -/
theorem decrypt_encrypt_roundtrip (P : CipherPrimitives) (text key iv : List Nat)
    (htext : ∀ x ∈ text, x < 256) (hiv : ∀ x ∈ iv, x < 256)
    (hinv : ∀ b : List Nat, b.length = 16 →
      P.aesDecrypt (formattedKey P key) (P.aesEncrypt (formattedKey P key) b) = b)
    (hlen : ∀ b : List Nat, b.length = 16 →
      (P.aesEncrypt (formattedKey P key) b).length = 16)
    (hbytes : ∀ b : List Nat, b.length = 16 → (∀ x ∈ b, x < 256) →
      ∀ x ∈ P.aesEncrypt (formattedKey P key) b, x < 256) :
    decrypt P (encrypt P text key iv) key iv = some text := by
  have hivlen : (formatIV iv).length = 16 := formatIV_length iv
  have hivlt : ∀ x ∈ formatIV iv, x < 256 := formatIV_lt iv hiv
  have hpadlt : ∀ x ∈ pkcs7pad text, x < 256 := pkcs7pad_lt text htext
  have hpadmod : (pkcs7pad text).length % 16 = 0 := pkcs7pad_mod text
  have hblocks16 : ∀ b ∈ toBlocks (pkcs7pad text), b.length = 16 :=
    toBlocksF_length_mem _ _ le_rfl hpadmod
  have hblockslt : ∀ b ∈ toBlocks (pkcs7pad text), ∀ x ∈ b, x < 256 :=
    toBlocksF_mem_lt _ _ hpadlt
  have hct : ∀ c ∈ cbcEncryptBlocks (P.aesEncrypt (formattedKey P key)) (formatIV iv)
      (toBlocks (pkcs7pad text)), c.length = 16 ∧ ∀ x ∈ c, x < 256 :=
    cbcEncryptBlocks_spec _ hlen hbytes _ _ hivlen hivlt
      (fun b hb => ⟨hblocks16 b hb, hblockslt b hb⟩)
  have hjoinlt : ∀ x ∈ joinBlocks (cbcEncryptBlocks (P.aesEncrypt (formattedKey P key))
      (formatIV iv) (toBlocks (pkcs7pad text))), x < 256 := by
    intro x hx
    unfold joinBlocks at hx
    obtain ⟨c, hc, hxc⟩ := List.mem_flatten.mp hx
    exact (hct c hc).2 x hxc
  have hb64 := b64_roundtrip _ hjoinlt
  have hjmod : (joinBlocks (cbcEncryptBlocks (P.aesEncrypt (formattedKey P key))
      (formatIV iv) (toBlocks (pkcs7pad text)))).length % 16 = 0 := by
    rw [joinBlocks_length_16 _ (fun c hc => (hct c hc).1)]
    omega
  have htb : toBlocks (joinBlocks (cbcEncryptBlocks (P.aesEncrypt (formattedKey P key))
      (formatIV iv) (toBlocks (pkcs7pad text)))) =
      cbcEncryptBlocks (P.aesEncrypt (formattedKey P key)) (formatIV iv)
        (toBlocks (pkcs7pad text)) :=
    toBlocksF_join _ _ (fun c hc => (hct c hc).1) le_rfl
  unfold encrypt decrypt
  rw [hb64, if_pos hjmod, htb,
    cbc_roundtrip _ _ hinv hlen _ _ hivlen hblocks16]
  unfold toBlocks
  rw [joinBlocks_toBlocksF _ _ le_rfl]
  exact pkcs7_roundtrip text

/-- C4, witness: with the identity block permutation as primitives (which
satisfy all three hypotheses), the round trip on the bytes "hi" with a
short key and IV returns the plaintext. -/
theorem decrypt_encrypt_roundtrip_witness :
    decrypt idPrimitives (encrypt idPrimitives [104, 105] [107] [105]) [107] [105] =
      some [104, 105] :=
  decrypt_encrypt_roundtrip idPrimitives [104, 105] [107] [105]
    (by decide) (by decide) (fun _ _ => rfl) (fun _ h => h) (fun _ _ hb => hb)

end Rexpay
